import Mathlib

/-!
Verification development for the hanashi entity-linking pipeline.

Shallow embedding of the functions under `src/hanashi` that the checked
properties concern:

* `hanashi.core.vector_search.base.filter_search_results`
* `hanashi.core.vector_search.qdrant.create_filters`
* `hanashi.services.rag.retriever.vector_search.merge_docuemnt_splits`
  and `post_process_documents`
* `hanashi.services.linker.Linker` (`_retrieve_candidates`, `_link_by_llm`,
  `run`)

Python floats are embedded as `Rat` (only order comparisons and zero-tests
are performed on scores and thresholds, which `Rat` reproduces), Python
exceptions as `Except Unit`, and Python truthiness is translated explicitly
at each use site (`not x` on a float is `x == 0`, on an optional string it
is "absent or empty").  External collaborators (vector backend, embedding,
LLM) are taken as oracle functions, mirroring the interface contracts of
spec section 6 (order-preserving, length-aligned batch responses).
-/

namespace Hanashi

/-- Models `hanashi.core.vector_search.base.ScoredDocument`: a retrieved
payload of arbitrary type together with its similarity score. -/
structure Scored (α : Type) where
  document : α
  score : Rat
deriving DecidableEq

/-- Per-result keep condition of `filter_search_results`
(`core/vector_search/base.py`, lines 65-68), with Python float truthiness
made explicit: `not result.score` holds exactly when the score is `0.0`,
and `result.score and result.score >= score_threshold` requires a nonzero
score. -/
def keepResult (require_score : Bool) (score_threshold : Rat)
    (result : Scored α) : Bool :=
  (!require_score && (result.score == 0 || decide (score_threshold ≤ result.score)))
    || (require_score && (!(result.score == 0) && decide (score_threshold ≤ result.score)))

/-- Models `filter_search_results` with `keep_score=True`: the generator is
translated to a list filter (it yields the surviving `ScoredDocument`s in
input order). -/
def filter_search_results (results : List (Scored α)) (score_threshold : Rat)
    (require_score : Bool) : List (Scored α) :=
  results.filter (keepResult require_score score_threshold)

/-- Models `filter_search_results` with `keep_score=False`: the surviving
entries are yielded as bare documents. -/
def filter_search_results_docs (results : List (Scored α)) (score_threshold : Rat)
    (require_score : Bool) : List α :=
  (filter_search_results results score_threshold require_score).map (·.document)

/-- C6 counterexample: a document whose score is present and equal to `0.0`
is dropped by `filter_search_results` in require-score mode even though the
threshold is `≤ 0` (the claim says it is kept), because `result.score and
...` treats a zero score as falsy. -/
theorem filter_search_results_drops_zero_score :
    filter_search_results [({ document := (), score := 0 } : Scored Unit)] 0 true = []
      ∧ (0 : Rat) ≤ 0 := by
  constructor
  · rfl
  · exact le_refl 0

/-- C6 (amended): `filter_search_results` with `require_score=True` keeps
exactly the documents with a nonzero score that is `≥` the threshold, and
with `require_score=False` exactly the documents whose score is zero
(treated as an absent score by Python truthiness) or `≥` the threshold. -/
theorem filter_search_results_characterization (results : List (Scored α)) (t : Rat) :
    filter_search_results results t true
        = results.filter (fun r => decide (r.score ≠ 0 ∧ t ≤ r.score))
      ∧ filter_search_results results t false
        = results.filter (fun r => decide (r.score = 0 ∨ t ≤ r.score)) := by
  constructor <;>
    · apply List.filter_congr
      intro r _
      by_cases h0 : r.score = 0 <;> by_cases ht : t ≤ r.score <;>
        simp [keepResult, h0, ht]

/-- C8: raising the score threshold never increases the number of retained
results, in require-score mode and in non-require mode alike. -/
theorem filter_search_results_threshold_monotone (results : List (Scored α))
    (t₁ t₂ : Rat) (h : t₁ ≤ t₂) (require_score : Bool) :
    (filter_search_results results t₂ require_score).length
      ≤ (filter_search_results results t₁ require_score).length := by
  apply List.Sublist.length_le
  apply List.monotone_filter_right
  intro a ha
  cases require_score <;> simp only [keepResult, Bool.false_and, Bool.true_and,
    Bool.or_false, Bool.false_or, Bool.not_false, Bool.not_true,
    Bool.and_eq_true, Bool.or_eq_true, decide_eq_true_eq] at ha ⊢
  · rcases ha with h0 | h2
    · exact Or.inl h0
    · exact Or.inr (le_trans h h2)
  · exact ⟨ha.1, le_trans h ha.2⟩

/-- Witness for C8 at a concrete input. -/
theorem filter_search_results_threshold_monotone_witness :
    (0 : Rat) ≤ 1
      ∧ (filter_search_results [({ document := (), score := 1 } : Scored Unit)] 1 true).length
          ≤ (filter_search_results [({ document := (), score := 1 } : Scored Unit)] 0 true).length := by
  refine ⟨by norm_num, ?_⟩
  exact filter_search_results_threshold_monotone _ 0 1 (by norm_num) true

/-! ### Filter compiler (`core/vector_search/qdrant.py`, `create_filters`) -/

/-- Numeric range parameters of a `range` clause (`models.Range`). -/
structure RangeSpec where
  gt : Option Rat := none
  ge : Option Rat := none
  lt : Option Rat := none
  le : Option Rat := none
deriving DecidableEq

/-- The `match` sub-operator of a filter clause: exactly one of the wire
keys `text`, `any`, `value` (spec section 6 wire format). -/
inductive MatchSpec
  | text (t : String)
  | anyOf (vs : List String)
  | value (v : String)
deriving DecidableEq

/-- A declarative filter clause: the optional keys of the Python clause
dict become optional fields (`matchOp` embeds the `match` key, `inOp` the
`in` key, `type` the group tag). -/
structure Clause where
  key : String
  type : Option String := none
  range : Option RangeSpec := none
  matchOp : Option MatchSpec := none
  inOp : Option (List String) := none
deriving DecidableEq

/-- A compiled backend field condition (`models.FieldCondition` with one of
the `Range`, `MatchText`, `MatchAny`, `MatchValue` payloads). -/
inductive FieldCondition
  | rangeCond (key : String) (r : RangeSpec)
  | matchText (key : String) (t : String)
  | matchAny (key : String) (vs : List String)
  | matchValue (key : String) (v : String)
deriving DecidableEq

/-- The backend filter (`models.Filter`): three condition groups. -/
structure QFilter where
  must : List FieldCondition
  must_not : List FieldCondition
  should : List FieldCondition
deriving DecidableEq

/-- Models `_create_field_condition` (`qdrant.py`, lines 24-55): operator
resolution order is `range`, then `match` (sub-order `text`, `any`, else
exact value), then `in` (sugar for match-any); a clause with none of these
raises `NotImplementedError`, embedded as `.error ()`. -/
def createFieldCondition (f : Clause) : Except Unit FieldCondition :=
  match f.range with
  | some r => .ok (.rangeCond f.key r)
  | none =>
    match f.matchOp with
    | some (.text t) => .ok (.matchText f.key t)
    | some (.anyOf vs) => .ok (.matchAny f.key vs)
    | some (.value v) => .ok (.matchValue f.key v)
    | none =>
      match f.inOp with
      | some vs => .ok (.matchAny f.key vs)
      | none => .error ()

/-- Total view of `createFieldCondition` used to state the grouping
theorems. -/
def condOf? (f : Clause) : Option FieldCondition :=
  match createFieldCondition f with
  | .ok c => some c
  | .error _ => none

/-- Python truthiness of the optional `type` tag (`if not type_`): `None`
and the empty string are falsy. -/
def typeTruthy : Option String → Bool
  | none => false
  | some s => !(s == "")

/-- The in-place `f.pop("type")` of `create_filters`: the clause dict with
its `type` key removed. -/
def stripType (c : Clause) : Clause := { c with type := none }

/-- The grouping loop of `create_filters` (`qdrant.py`, lines 60-70).
First component: the three clause groups (`must`, `must_not`, `should`);
second component: the clause list as left behind by the loop's in-place
mutation (every clause with a truthy `type` has had the key popped, and the
group entries alias the mutated dicts).  A clause whose truthy tag is
neither `"must_not"` nor `"should"` is popped but appended to no group. -/
def groupClauses : List Clause → (List Clause × List Clause × List Clause) × List Clause
  | [] => (([], [], []), [])
  | f :: rest =>
    let ((m, mn, s), out) := groupClauses rest
    if typeTruthy f.type then
      let f' := stripType f
      if f.type == some "must_not" then ((m, f' :: mn, s), f' :: out)
      else if f.type == some "should" then ((m, mn, f' :: s), f' :: out)
      else ((m, mn, s), f' :: out)
    else ((f :: m, mn, s), f :: out)

/-- Models `create_filters` (`qdrant.py`, lines 18-76).  First component:
the returned backend filter (`None` for an empty clause list becomes
`.ok none`; `NotImplementedError` becomes `.error ()`); second component:
the caller's clause list after the in-place `pop("type")` mutation. -/
def create_filters (filters : List Clause) : Except Unit (Option QFilter) × List Clause :=
  if filters.isEmpty then (.ok none, filters)
  else
    let ((m, mn, s), out) := groupClauses filters
    let result : Except Unit (Option QFilter) := do
      let mc ← m.mapM createFieldCondition
      let mnc ← mn.mapM createFieldCondition
      let sc ← s.mapM createFieldCondition
      return some { must := mc, must_not := mnc, should := sc }
    (result, out)

theorem condOf_stripType (f : Clause) : condOf? (stripType f) = condOf? f := by
  cases f; rfl

theorem groupClauses_spec (filters : List Clause) :
    (groupClauses filters).1.1 = filters.filter (fun f => !typeTruthy f.type)
      ∧ (groupClauses filters).1.2.1
          = (filters.filter (fun f => f.type == some "must_not")).map stripType
      ∧ (groupClauses filters).1.2.2
          = (filters.filter (fun f => f.type == some "should")).map stripType
      ∧ (groupClauses filters).2
          = filters.map (fun f => if typeTruthy f.type then stripType f else f) := by
  induction filters with
  | nil => exact ⟨rfl, rfl, rfl, rfl⟩
  | cons f rest ih =>
    obtain ⟨ih1, ih2, ih3, ih4⟩ := ih
    by_cases ht : typeTruthy f.type
    · by_cases hmn : f.type == some "must_not"
      · have hs : ¬(f.type == some "should") = true := by
          simp only [beq_iff_eq] at hmn ⊢; simp [hmn]
        simp [groupClauses, ht, hmn, hs, List.filter_cons, ih1, ih2, ih3, ih4]
      · by_cases hsh : f.type == some "should"
        · simp [groupClauses, ht, hmn, hsh, List.filter_cons, ih1, ih2, ih3, ih4]
        · simp [groupClauses, ht, hmn, hsh, List.filter_cons, ih1, ih2, ih3, ih4]
    · have hmn : ¬(f.type == some "must_not") = true := by
        intro h
        apply ht
        simp only [beq_iff_eq] at h
        simp [typeTruthy, h]
      have hsh : ¬(f.type == some "should") = true := by
        intro h
        apply ht
        simp only [beq_iff_eq] at h
        simp [typeTruthy, h]
      simp [groupClauses, ht, hmn, hsh, List.filter_cons, ih1, ih2, ih3, ih4]

theorem mapM_createFieldCondition_eq (l : List Clause)
    (h : ∀ f ∈ l, (condOf? f).isSome) :
    l.mapM createFieldCondition = .ok (l.filterMap condOf?) := by
  induction l with
  | nil => rfl
  | cons f rest ih =>
    have hf := h f (List.mem_cons_self f rest)
    have hrest := ih fun g hg => h g (List.mem_cons_of_mem f hg)
    unfold condOf? at hf
    rcases hc : createFieldCondition f with e | c
    · rw [hc] at hf; simp at hf
    · rw [List.mapM_cons, hc, hrest]
      simp only [List.filterMap_cons, condOf?, hc]
      rfl

/-- C5 counterexample: a filter spec with one clause per operator kind in
which the `range` clause is explicitly tagged `type: "must"`.  The claim
expects the range condition in the `must` group; `create_filters` instead
pops the tag and appends the clause to no group at all, so the compiled
filter contains no range condition anywhere. -/
theorem create_filters_drops_explicit_must :
    (create_filters
        [ { key := "year", type := some "must",
            range := some { ge := some 2000 } },
          { key := "name", matchOp := some (.value "a") },
          { key := "body", type := some "should", matchOp := some (.text "b") },
          { key := "tag", type := some "must_not", matchOp := some (.anyOf ["c"]) },
          { key := "kind", inOp := some ["d"] } ]).1
      = .ok (some
          { must := [.matchValue "name" "a", .matchAny "kind" ["d"]],
            must_not := [.matchAny "tag" ["c"]],
            should := [.matchText "body" "b"] }) := by
  rfl

/-- C5 (amended): for a non-empty clause list whose clauses all carry a
supported operator, `create_filters` groups the compiled conditions by the
`type` tag as follows: a clause with a falsy tag (absent or empty string)
goes to `must`, a clause tagged `"must_not"` or `"should"` goes to its
declared group, and a clause with any other truthy tag — including an
explicit `"must"` — is dropped from all three groups. -/
theorem create_filters_grouping (filters : List Clause)
    (hne : filters ≠ [])
    (hop : ∀ f ∈ filters, (condOf? f).isSome) :
    (create_filters filters).1
      = .ok (some
          { must := (filters.filter (fun f => !typeTruthy f.type)).filterMap condOf?,
            must_not := (filters.filter (fun f => f.type == some "must_not")).filterMap condOf?,
            should := (filters.filter (fun f => f.type == some "should")).filterMap condOf? }) := by
  obtain ⟨g1, g2, g3, -⟩ := groupClauses_spec filters
  have hmem : ∀ (p : Clause → Bool) (f : Clause), f ∈ filters.filter p → (condOf? f).isSome :=
    fun p f hf => hop f (List.mem_of_mem_filter hf)
  have hmem2 : ∀ (p : Clause → Bool) (f : Clause),
      f ∈ (filters.filter p).map stripType → (condOf? f).isSome := by
    intro p f hf
    obtain ⟨g, hg, rfl⟩ := List.mem_map.1 hf
    rw [condOf_stripType]
    exact hmem p g hg
  have hfilterMap : ∀ (p : Clause → Bool),
      ((filters.filter p).map stripType).filterMap condOf?
        = (filters.filter p).filterMap condOf? := by
    intro p
    rw [List.filterMap_map]
    apply List.filterMap_congr
    intro f _
    exact congrFun (funext condOf_stripType) f ▸ condOf_stripType f
  unfold create_filters
  rw [if_neg (by simpa using hne)]
  simp only [g1, g2, g3]
  rw [mapM_createFieldCondition_eq _ (hmem _),
    mapM_createFieldCondition_eq _ (hmem2 _),
    mapM_createFieldCondition_eq _ (hmem2 _)]
  simp only [hfilterMap]
  rfl

/-- Witness for C5's amended theorem at a concrete spec. -/
theorem create_filters_grouping_witness :
    (create_filters
        [ { key := "name", matchOp := some (.value "a") },
          { key := "tag", type := some "must_not", matchOp := some (.anyOf ["c"]) } ]).1
      = .ok (some
          { must := [.matchValue "name" "a"],
            must_not := [.matchAny "tag" ["c"]],
            should := [] }) :=
  (create_filters_grouping _ (by decide) (by decide)).trans (by rfl)

/-- C9: compiling a non-empty clause list pops the `type` key of every
clause with a truthy tag (in particular of every `"must_not"` or
`"should"` clause) in place, so the caller's filter spec object is
changed; compiling the mutated list a second time sends every clause to
the `must` group, with `must_not` and `should` left empty — the declared
grouping is not repeatable on the same spec object. -/
theorem create_filters_mutates_input (filters : List Clause)
    (hne : filters ≠ [])
    (hop : ∀ f ∈ filters, (condOf? f).isSome) :
    (create_filters filters).2
        = filters.map (fun f => if typeTruthy f.type then stripType f else f)
      ∧ (create_filters (create_filters filters).2).1
        = .ok (some
            { must := ((create_filters filters).2).filterMap condOf?,
              must_not := [],
              should := [] }) := by
  obtain ⟨-, -, -, g4⟩ := groupClauses_spec filters
  have hsnd : (create_filters filters).2
      = filters.map (fun f => if typeTruthy f.type then stripType f else f) := by
    unfold create_filters
    rw [if_neg (by simpa using hne)]
    simpa using g4
  refine ⟨hsnd, ?_⟩
  set muts := filters.map (fun f => if typeTruthy f.type then stripType f else f) with hmuts
  have hfalsy : ∀ f ∈ muts, typeTruthy f.type = false := by
    intro f hf
    obtain ⟨g, hg, rfl⟩ := List.mem_map.1 hf
    cases hb : typeTruthy g.type with
    | true => simp [stripType, typeTruthy]
    | false => simpa using hb
  have hopmut : ∀ f ∈ muts, (condOf? f).isSome := by
    intro f hf
    obtain ⟨g, hg, rfl⟩ := List.mem_map.1 hf
    by_cases h : typeTruthy g.type <;> simp [h, condOf_stripType, hop g hg]
  have hne2 : muts ≠ [] := by
    intro h
    apply hne
    simpa [hmuts] using congrArg List.length h
  have := create_filters_grouping muts hne2 hopmut
  rw [hsnd, this]
  have hall : muts.filter (fun f => !typeTruthy f.type) = muts :=
    List.filter_eq_self.2 fun f hf => by simp [hfalsy f hf]
  have hnone1 : muts.filter (fun f => f.type == some "must_not") = [] := by
    apply List.filter_eq_nil_iff.2
    intro f hf
    have := hfalsy f hf
    intro hc
    simp only [beq_iff_eq] at hc
    rw [hc] at this
    simp [typeTruthy] at this
  have hnone2 : muts.filter (fun f => f.type == some "should") = [] := by
    apply List.filter_eq_nil_iff.2
    intro f hf
    have := hfalsy f hf
    intro hc
    simp only [beq_iff_eq] at hc
    rw [hc] at this
    simp [typeTruthy] at this
  rw [hall, hnone1, hnone2]
  simp

/-- The concrete clause used in the C9 witness. -/
def shouldClause : Clause :=
  { key := "b", type := some "should", matchOp := some (.text "t") }

/-- Witness for C9 at a concrete spec: the `"should"` tag is popped by the
first compilation and the clause lands in `must` on the second. -/
theorem create_filters_mutates_input_witness :
    (create_filters [shouldClause]).2 = [{ key := "b", matchOp := some (.text "t") }]
      ∧ (create_filters (create_filters [shouldClause]).2).1
        = .ok (some { must := [.matchText "b" "t"], must_not := [], should := [] }) := by
  have h := create_filters_mutates_input [shouldClause] (by decide) (by decide)
  exact ⟨h.1.trans (by rfl), h.2.trans (by rfl)⟩

/-! ### Entity linker (`services/linker/__init__.py`) -/

/-- A Python value in the `name` position of an `Entity`: the linker only
tests `isinstance(entity.name, str)` and otherwise treats the name
opaquely, so stringness and identity are all that matters. -/
inductive NameVal
  | str (s : String)
  | nonStr
deriving DecidableEq

/-- The `isinstance(entity.name, str)` test of `_retrieve_candidates`. -/
def NameVal.isStr : NameVal → Bool
  | .str _ => true
  | .nonStr => false

/-- Models `hanashi.services.extractor.Entity`. -/
structure Entity where
  type : String
  name : NameVal
deriving DecidableEq

/-- A candidate record stored in the vector index; `_link_by_llm` renders
its `name` field into the prompt and attaches the whole record as
metadata. -/
structure CandDoc where
  name : String
deriving DecidableEq

/-- Models `hanashi.services.linker.LinkedEntity`: an `Entity` plus the
matched candidate record as metadata. -/
structure LinkedEntity where
  type : String
  name : NameVal
  metadata : CandDoc
deriving DecidableEq

/-- The entity part of a `LinkedEntity`. -/
def LinkedEntity.toEntity (le : LinkedEntity) : Entity :=
  { type := le.type, name := le.name }

/-- One `entity_with_candidates` dict built by `_retrieve_candidates`. -/
structure EWC where
  entity : Entity
  candidates : List CandDoc
deriving DecidableEq

/-- Value of a non-empty all-digit character run (helper for
`parseIntPy`). -/
def digitsVal? (cs : List Char) : Option Nat :=
  if cs ≠ [] ∧ cs.all Char.isDigit then
    some (cs.foldl (fun n c => n * 10 + (c.toNat - 48)) 0)
  else none

/-- Whitespace stripping from both ends of a character list (Python
`str.strip()` as performed by `int(...)`). -/
def pyStrip (cs : List Char) : List Char :=
  ((cs.dropWhile Char.isWhitespace).reverse.dropWhile Char.isWhitespace).reverse

/-- Models Python `int(response)` on the response string: optional
surrounding whitespace, an optional sign, then a non-empty digit run;
anything else raises `ValueError`, embedded as `none`.  (Python also
accepts underscore digit separators and non-ASCII digits; such responses
are outside this embedding, which only ever conditions on the parse
outcome.) -/
def parseIntPy (s : String) : Option Int :=
  match pyStrip s.toList with
  | '+' :: cs => (digitsVal? cs).map Int.ofNat
  | '-' :: cs => (digitsVal? cs).map (fun n => -(n : Int))
  | cs => (digitsVal? cs).map Int.ofNat

/-- The `LinkedEntity` the linker builds for entity `e` with matched
candidate record `c`. -/
def mkLinked (e : Entity) (c : CandDoc) : LinkedEntity :=
  { type := e.type, name := e.name, metadata := c }

/-- Models the verification loop of `Linker._link_by_llm`
(`linker/__init__.py`, lines 200-266) over the
(entity-with-candidates, response) pairs.  A non-integer response is
skipped, so the entity reaches neither output list.  A parsed value `n`
gives the zero-based `index = n - 1`; `index > len(candidates)` or
`index < 0` appends the entity to the unlinked list; otherwise
`candidates[index]` becomes the metadata of a new `LinkedEntity` — and for
`index = len(candidates)` that subscript raises `IndexError`, embedded as
`.error ()`, which aborts the whole batch. -/
def linkByLLM : List (EWC × String) → Except Unit (List LinkedEntity × List Entity)
  | [] => .ok ([], [])
  | (ewc, response) :: rest =>
    match parseIntPy response with
    | none => linkByLLM rest
    | some n =>
      let index : Int := n - 1
      if (ewc.candidates.length : Int) < index then
        (linkByLLM rest).map (fun p => (p.1, ewc.entity :: p.2))
      else if index < 0 then
        (linkByLLM rest).map (fun p => (p.1, ewc.entity :: p.2))
      else
        match ewc.candidates[index.toNat]? with
        | some c => (linkByLLM rest).map (fun p => (mkLinked ewc.entity c :: p.1, p.2))
        | none => .error ()

/-- Static configuration of a `Linker` relevant to candidate processing:
the per-entity-type post-process transform table
(`candidate_postprocess_fns`) and the optional confidence threshold for
skipping the LLM check. -/
structure LinkerCfg where
  candidate_postprocess_fns : String → Option (Entity → List CandDoc → List CandDoc)
  skip_llm_check_confidence : Option Rat

/-- The transform step of `_retrieve_candidates` (lines 117-127): the
document list for one entity after stripping scores and applying the
optional per-type transform. -/
def postDocs (cfg : LinkerCfg) (entity : Entity) (dws : List (Scored CandDoc)) :
    List CandDoc :=
  let docs := dws.map (·.document)
  match cfg.candidate_postprocess_fns entity.type with
  | some fn => fn entity docs
  | none => docs

/-- Python truthiness of `if self.skip_llm_check_confidence:`: an absent
threshold and a threshold of `0.0` are both falsy. -/
def confTruthy : Option Rat → Bool
  | none => false
  | some c => decide (c ≠ 0)

/-- The numeric value of the configured skip threshold (only consulted
when `confTruthy` holds). -/
def confVal (o : Option Rat) : Rat := o.getD 0

/-- Models the per-entity loop of `Linker._retrieve_candidates` (lines
116-168) over (entity, score-filtered scored documents) pairs.  Outputs,
in iteration order: entities kept for LLM verification, entities with no
candidates (unlinked), entities linked by the confidence shortcut.  The
shortcut translates `if self.skip_llm_check_confidence:` (a configured
threshold of `0.0` is falsy) and counts the entries of `docs_with_scores`
— the score-filtered list from before the transform — whose score strictly
exceeds the threshold; when exactly one does, its `document` becomes the
metadata and no verification request is queued for the entity. -/
def retrieveLoop (cfg : LinkerCfg) :
    List (Entity × List (Scored CandDoc)) → List EWC × List Entity × List LinkedEntity
  | [] => ([], [], [])
  | (entity, dws) :: rest =>
    let r := retrieveLoop cfg rest
    let docs := postDocs cfg entity dws
    if docs.isEmpty then (r.1, entity :: r.2.1, r.2.2)
    else if confTruthy cfg.skip_llm_check_confidence then
      match dws.filter
          (fun x => decide (confVal cfg.skip_llm_check_confidence < x.score)) with
      | [d] => (r.1, r.2.1, mkLinked entity d.document :: r.2.2)
      | _ => ({ entity := entity, candidates := docs } :: r.1, r.2.1, r.2.2)
    else ({ entity := entity, candidates := docs } :: r.1, r.2.1, r.2.2)

/-- Models `Linker._retrieve_candidates` (lines 60-169).  The vector
backend is an oracle `retrieve` giving each entity's raw scored candidate
list (the batched call is order-preserving and length-aligned, spec
section 6); the score threshold is applied through
`filter_search_results` with `require_score=True` exactly as in the
source.  Returns (entities with candidates, unlinked entities, entities
linked by shortcut). -/
def retrieveCandidates (cfg : LinkerCfg) (retrieve : Entity → List (Scored CandDoc))
    (entities : List Entity) (score_threshold : Rat) :
    List EWC × List Entity × List LinkedEntity :=
  let unlinked0 := entities.filter (fun e => !e.name.isStr)
  let to_link := entities.filter (fun e => e.name.isStr)
  if to_link.isEmpty then ([], unlinked0, [])
  else
    let batch_docs := (to_link.map retrieve).map
      (fun docs => filter_search_results docs score_threshold true)
    let r := retrieveLoop cfg (to_link.zip batch_docs)
    (r.1, unlinked0 ++ r.2.1, r.2.2)

/-- Models `LinkerResponse`. -/
structure LinkerResponse where
  linked_entities : List LinkedEntity
  unlinked_entities : List Entity
deriving DecidableEq

/-- Models `Linker.run` (lines 268-319): an empty entity list
short-circuits; otherwise candidates are retrieved and, when any entity
remains ambiguous, `_link_by_llm` resolves the rest, its `IndexError`
propagating.  The LLM collaborator is an oracle `llm` from an
entity-with-candidates record (the data the prompt is formatted from) to
its response string. -/
def Linker.run (cfg : LinkerCfg) (retrieve : Entity → List (Scored CandDoc))
    (llm : EWC → String) (entities : List Entity) (score_threshold : Rat) :
    Except Unit LinkerResponse :=
  if entities.isEmpty then .ok { linked_entities := [], unlinked_entities := [] }
  else
    let r := retrieveCandidates cfg retrieve entities score_threshold
    if r.1.isEmpty then .ok { linked_entities := r.2.2, unlinked_entities := r.2.1 }
    else
      match linkByLLM (r.1.map (fun x => (x, llm x))) with
      | .ok p => .ok { linked_entities := r.2.2 ++ p.1, unlinked_entities := r.2.1 ++ p.2 }
      | .error e => .error e

/-- A concrete entity with a string name, used in concrete-input
theorems. -/
def entT : Entity := { type := "T", name := .str "x" }

/-- Another concrete entity with a string name. -/
def entU : Entity := { type := "U", name := .str "y" }

/-- A concrete candidate record. -/
def docC : CandDoc := { name := "c" }

/-- A concrete entity-with-candidates record holding one candidate. -/
def ewcT : EWC := { entity := entT, candidates := [docC] }

/-- C3 counterexample: one entity with a single candidate and response
`"2"`.  The parsed 1-based index 2 is strictly greater than the candidate
count 1, yet the entity is not routed to unlinked: the zero-based index 1
passes the `index > len(candidates)` guard and the subscript
`candidates[1]` raises `IndexError`, aborting the batch — contradicting
the claim that every parsed integer above the candidate count is handled
without an out-of-bounds access. -/
theorem linkByLLM_oob_crash :
    parseIntPy "2" = some 2 ∧ linkByLLM [(ewcT, "2")] = .error () :=
  ⟨rfl, rfl⟩

/-- C3 (amended): for a response parsing to `n` and `len` the candidate
count, the code compares the zero-based `n - 1` against `len`: when
`n > len + 1` the entity is appended to unlinked and processing continues
without raising, but when `n = len + 1` (so the claim's premise `n > len`
also holds) the `candidates[n - 1]` access raises `IndexError` and aborts
the batch.  The claim's safe bound is off by one. -/
theorem linkByLLM_oob (ewc : EWC) (response : String)
    (rest : List (EWC × String)) (n : Int)
    (hp : parseIntPy response = some n) :
    ((ewc.candidates.length : Int) + 1 < n →
        linkByLLM ((ewc, response) :: rest)
          = (linkByLLM rest).map (fun p => (p.1, ewc.entity :: p.2)))
      ∧ (n = (ewc.candidates.length : Int) + 1 →
          linkByLLM ((ewc, response) :: rest) = .error ()) := by
  constructor
  · intro hn
    simp only [linkByLLM, hp]
    rw [if_pos (by omega)]
  · intro hn
    simp only [linkByLLM, hp]
    rw [if_neg (by omega), if_neg (by omega)]
    have hidx : (n - 1).toNat = ewc.candidates.length := by omega
    rw [hidx, List.getElem?_eq_none (le_refl _)]

/-- A concrete entity-with-candidates record with no candidates. -/
def ewcU : EWC := { entity := entU, candidates := [] }

/-- Witness for C3's amended theorem: candidate count 0, response `"3"`
(parsed value 3 > 0 + 1) routes the entity to unlinked without raising;
candidate count 1, response `"2"` (parsed value 2 = 1 + 1) aborts. -/
theorem linkByLLM_oob_witness :
    linkByLLM [(ewcU, "3")] = .ok ([], [entU])
      ∧ linkByLLM [(ewcT, "2")] = .error () := by
  constructor
  · exact ((linkByLLM_oob ewcU "3" [] 3 (by rfl)).1 (by simp [ewcU])).trans (by rfl)
  · exact (linkByLLM_oob ewcT "2" [] 2 (by rfl)).2 (by simp [ewcT])

/-- C4: an entity whose verification response does not parse as an integer
is silently discarded — the batch result (output lists and
success/failure alike) is exactly that of the batch with the pair removed,
so the entity reaches neither the linked nor the unlinked list while every
other entity of the batch is processed unchanged. -/
theorem linkByLLM_parse_failure_drop (pre post : List (EWC × String))
    (ewc : EWC) (response : String) (hp : parseIntPy response = none) :
    linkByLLM (pre ++ (ewc, response) :: post) = linkByLLM (pre ++ post) := by
  induction pre with
  | nil => simp [linkByLLM, hp]
  | cons p pre ih =>
    obtain ⟨e1, r1⟩ := p
    simp only [List.cons_append, linkByLLM, List.append_eq, ih]

/-- Witness for C4 at a concrete batch: the `"oops"` pair disappears, the
`"0"` pair is processed unchanged. -/
theorem linkByLLM_parse_failure_drop_witness :
    linkByLLM [(ewcU, "oops"), (ewcT, "0")] = linkByLLM [(ewcT, "0")] :=
  linkByLLM_parse_failure_drop [] [(ewcT, "0")] ewcU "oops" (by rfl)

/-- Configuration for the C2 counterexample: skip threshold 5 and a
per-type transform for type `"T"` that keeps only the first candidate. -/
def cfgC2 : LinkerCfg :=
  { candidate_postprocess_fns := fun t =>
      if t == "T" then some (fun _ docs => docs.take 1) else none,
    skip_llm_check_confidence := some 5 }

/-- The raw scored candidates of the C2 counterexample: two documents with
scores 9 and 8, both above the skip threshold 5. -/
def dwsC2 : List (Scored CandDoc) :=
  [ { document := { name := "A" }, score := 9 },
    { document := { name := "B" }, score := 8 } ]

/-- C2 counterexample: after the per-type transform the candidate list is
the single document `A`, whose score 9 strictly exceeds the configured
skip threshold 5 — the claim then requires an immediate link with no
verification call.  The code instead counts the pre-transform scored list
(both entries exceed 5), finds two, and queues the entity for model
verification: the result has an entity-with-candidates entry and no
linked entity. -/
theorem confidence_shortcut_counterexample :
    postDocs cfgC2 entT dwsC2 = [{ name := "A" }]
      ∧ (5 : Rat) < 9
      ∧ retrieveCandidates cfgC2 (fun _ => dwsC2) [entT] 0
          = ([{ entity := entT, candidates := [{ name := "A" }] }], [], []) := by
  refine ⟨rfl, by norm_num, ?_⟩
  rfl

/-- C2 (amended): the per-type transform is applied, in program order,
before the confidence check, but the check counts the candidates of the
score-filtered list from *before* the transform: with a configured
nonzero skip threshold and a non-empty post-transform document list, the
entity is linked immediately — to the unique pre-transform candidate
exceeding the threshold — exactly when one such candidate exists, and
otherwise (zero or several pre-transform candidates above the threshold)
falls through to model verification carrying the post-transform
candidates. -/
theorem confidence_shortcut_pretransform (cfg : LinkerCfg) (entity : Entity)
    (dws : List (Scored CandDoc)) (rest : List (Entity × List (Scored CandDoc)))
    (conf : Rat) (hconf : cfg.skip_llm_check_confidence = some conf)
    (h0 : conf ≠ 0) (hdocs : postDocs cfg entity dws ≠ []) :
    (∀ d, dws.filter (fun x => decide (conf < x.score)) = [d] →
        retrieveLoop cfg ((entity, dws) :: rest)
          = ((retrieveLoop cfg rest).1, (retrieveLoop cfg rest).2.1,
              mkLinked entity d.document :: (retrieveLoop cfg rest).2.2))
      ∧ ((dws.filter (fun x => decide (conf < x.score))).length ≠ 1 →
          retrieveLoop cfg ((entity, dws) :: rest)
            = ({ entity := entity, candidates := postDocs cfg entity dws }
                  :: (retrieveLoop cfg rest).1,
                (retrieveLoop cfg rest).2.1, (retrieveLoop cfg rest).2.2)) := by
  have hde : (postDocs cfg entity dws).isEmpty = false := by
    simpa [List.isEmpty_iff] using hdocs
  have hct : confTruthy cfg.skip_llm_check_confidence = true := by
    rw [hconf]; simpa [confTruthy] using h0
  have hcv : confVal cfg.skip_llm_check_confidence = conf := by
    rw [hconf]; rfl
  constructor
  · intro d hd
    simp only [retrieveLoop, hde, Bool.false_eq_true, if_false, hct, if_true, hcv, hd]
  · intro hlen
    simp only [retrieveLoop, hde, Bool.false_eq_true, if_false, hct, if_true, hcv]
    rcases hf : dws.filter (fun x => decide (conf < x.score)) with - | ⟨d1, - | ⟨d2, tl⟩⟩
    · rw [hf]
    · exact absurd (by simp [hf]) hlen
    · rw [hf]

/-- Configuration for the C2 witness: skip threshold 5 and no per-type
transform. -/
def cfgC2w : LinkerCfg :=
  { candidate_postprocess_fns := fun _ => none,
    skip_llm_check_confidence := some 5 }

/-- A single scored candidate above the skip threshold. -/
def dwsC2w : List (Scored CandDoc) := [{ document := { name := "A" }, score := 9 }]

/-- Witness for C2's amended theorem: exactly one pre-transform candidate
above the threshold links immediately, and the two-candidate list of
`dwsC2` falls through to verification. -/
theorem confidence_shortcut_pretransform_witness :
    retrieveLoop cfgC2w [(entU, dwsC2w)]
        = ([], [], [mkLinked entU { name := "A" }])
      ∧ retrieveLoop cfgC2 [(entT, dwsC2)]
          = ([{ entity := entT, candidates := [{ name := "A" }] }], [], []) := by
  constructor
  · exact ((confidence_shortcut_pretransform cfgC2w entU dwsC2w [] 5 rfl
      (by norm_num) (by decide)).1 { document := { name := "A" }, score := 9 }
      (by rfl)).trans (by rfl)
  · exact ((confidence_shortcut_pretransform cfgC2 entT dwsC2 [] 5 rfl
      (by norm_num) (by decide)).2 (by decide)).trans (by rfl)

theorem mkLinked_toEntity (e : Entity) (c : CandDoc) :
    (mkLinked e c).toEntity = e := by
  cases e; rfl

theorem perm_snoc_middle (a : α) (l₁ l₂ l₃ : List α) :
    (l₁ ++ (a :: l₂) ++ l₃).Perm (a :: (l₁ ++ l₂ ++ l₃)) := by
  have h := (@List.perm_middle _ a l₁ l₂).append_right l₃
  exact h


theorem perm_last_middle (a : α) (l₁ l₂ l₃ : List α) :
    (l₁ ++ l₂ ++ (a :: l₃)).Perm (a :: (l₁ ++ l₂ ++ l₃)) := by
  have h := @List.perm_middle _ a (l₁ ++ l₂) l₃
  simpa [List.append_assoc] using h

theorem retrieveLoop_cons_empty (cfg : LinkerCfg) (entity : Entity)
    (dws : List (Scored CandDoc)) (rest : List (Entity × List (Scored CandDoc)))
    (hd : (postDocs cfg entity dws).isEmpty = true) :
    retrieveLoop cfg ((entity, dws) :: rest)
      = ((retrieveLoop cfg rest).1, entity :: (retrieveLoop cfg rest).2.1,
          (retrieveLoop cfg rest).2.2) := by
  simp only [retrieveLoop, hd, if_true]

theorem retrieveLoop_cons_cases (cfg : LinkerCfg) (entity : Entity)
    (dws : List (Scored CandDoc)) (rest : List (Entity × List (Scored CandDoc)))
    (hd : (postDocs cfg entity dws).isEmpty = false) :
    retrieveLoop cfg ((entity, dws) :: rest)
        = ({ entity := entity, candidates := postDocs cfg entity dws }
              :: (retrieveLoop cfg rest).1,
            (retrieveLoop cfg rest).2.1, (retrieveLoop cfg rest).2.2)
      ∨ ∃ d : Scored CandDoc, retrieveLoop cfg ((entity, dws) :: rest)
          = ((retrieveLoop cfg rest).1, (retrieveLoop cfg rest).2.1,
              mkLinked entity d.document :: (retrieveLoop cfg rest).2.2) := by
  simp only [retrieveLoop, hd, Bool.false_eq_true, if_false]
  cases hct : confTruthy cfg.skip_llm_check_confidence with
  | false => rw [if_neg (by simp)]; exact Or.inl rfl
  | true =>
    rw [if_pos rfl]
    rcases hf : dws.filter
        (fun x => decide (confVal cfg.skip_llm_check_confidence < x.score)) with
      - | ⟨d1, - | ⟨d2, tl⟩⟩
    · rw [hf]; exact Or.inl rfl
    · rw [hf]; exact Or.inr ⟨d1, rfl⟩
    · rw [hf]; exact Or.inl rfl

/-- The per-entity loop of `_retrieve_candidates` routes every processed
entity to exactly one of its three outputs: jointly they are a
permutation of the processed entities. -/
theorem retrieveLoop_partition (cfg : LinkerCfg)
    (pairs : List (Entity × List (Scored CandDoc))) :
    ((retrieveLoop cfg pairs).2.2.map LinkedEntity.toEntity
        ++ (retrieveLoop cfg pairs).1.map EWC.entity
        ++ (retrieveLoop cfg pairs).2.1).Perm (pairs.map Prod.fst) := by
  induction pairs with
  | nil => simp [retrieveLoop]
  | cons p rest ih =>
    obtain ⟨entity, dws⟩ := p
    simp only [List.map_cons]
    by_cases hd : (postDocs cfg entity dws).isEmpty = true
    · rw [retrieveLoop_cons_empty cfg entity dws rest hd]
      exact (perm_last_middle _ _ _ _).trans (ih.cons entity)
    · rw [Bool.not_eq_true] at hd
      rcases retrieveLoop_cons_cases cfg entity dws rest hd with heq | ⟨d, heq⟩
      · rw [heq]
        simp only [List.map_cons]
        exact (perm_snoc_middle _ _ _ _).trans (ih.cons entity)
      · rw [heq]
        simp only [List.map_cons, mkLinked_toEntity, List.cons_append]
        exact ih.cons entity

/-- The candidate-retrieval stage routes every input entity to exactly one
of: linked-by-shortcut, kept-for-verification, unlinked. -/
theorem retrieveCandidates_partition (cfg : LinkerCfg)
    (retrieve : Entity → List (Scored CandDoc)) (entities : List Entity) (t : Rat) :
    ((retrieveCandidates cfg retrieve entities t).2.2.map LinkedEntity.toEntity
        ++ (retrieveCandidates cfg retrieve entities t).1.map EWC.entity
        ++ (retrieveCandidates cfg retrieve entities t).2.1).Perm entities := by
  have hsplit := List.filter_append_perm (fun e => e.name.isStr) entities
  simp only [retrieveCandidates]
  by_cases he : (entities.filter (fun e => e.name.isStr)).isEmpty = true
  · rw [if_pos he]
    rw [List.isEmpty_iff.1 he] at hsplit
    simpa using hsplit
  · rw [if_neg he]
    have hloop := retrieveLoop_partition cfg
      ((entities.filter (fun e => e.name.isStr)).zip
        (((entities.filter (fun e => e.name.isStr)).map retrieve).map
          (fun docs => filter_search_results docs t true)))
    rw [List.map_fst_zip _ _ (by simp)] at hloop
    rw [← Multiset.coe_eq_coe] at hloop hsplit ⊢
    simp only [← Multiset.coe_add] at hloop hsplit ⊢
    rw [← hsplit, ← hloop]
    abel

/-- The verification loop preserves the processed entities: when every
response parses and no out-of-bounds access occurs, the linked and
unlinked outputs jointly are a permutation of the batch's entities. -/
theorem linkByLLM_partition (pairs : List (EWC × String))
    (hparse : ∀ q ∈ pairs, (parseIntPy q.2).isSome)
    (l2 : List LinkedEntity) (u2 : List Entity)
    (hok : linkByLLM pairs = .ok (l2, u2)) :
    (l2.map LinkedEntity.toEntity ++ u2).Perm (pairs.map (fun q => q.1.entity)) := by
  induction pairs generalizing l2 u2 with
  | nil =>
    simp only [linkByLLM] at hok
    cases hok
    simp
  | cons q rest ih =>
    obtain ⟨ewc, response⟩ := q
    have hq := hparse _ (List.mem_cons_self _ _)
    have hrest : ∀ q ∈ rest, (parseIntPy q.2).isSome :=
      fun q2 hq2 => hparse q2 (List.mem_cons_of_mem _ hq2)
    rcases hsome : parseIntPy response with - | n
    · rw [hsome] at hq; simp at hq
    · simp only [linkByLLM, hsome] at hok
      by_cases h1 : (ewc.candidates.length : Int) < n - 1
      · rw [if_pos h1] at hok
        rcases hr : linkByLLM rest with e | pr
        · rw [hr] at hok; simp only [Except.map] at hok; cases hok
        · obtain ⟨l, u⟩ := pr
          rw [hr] at hok
          simp only [Except.map] at hok
          cases hok
          simp only [List.map_cons]
          exact List.perm_middle.trans ((ih hrest _ _ hr).cons _)
      · rw [if_neg h1] at hok
        by_cases h2 : (n - 1 : Int) < 0
        · rw [if_pos h2] at hok
          rcases hr : linkByLLM rest with e | pr
          · rw [hr] at hok; simp only [Except.map] at hok; cases hok
          · obtain ⟨l, u⟩ := pr
            rw [hr] at hok
            simp only [Except.map] at hok
            cases hok
            simp only [List.map_cons]
            exact List.perm_middle.trans ((ih hrest _ _ hr).cons _)
        · rw [if_neg h2] at hok
          rcases hg : ewc.candidates[(n - 1).toNat]? with - | c
          · rw [hg] at hok; cases hok
          · rw [hg] at hok
            rcases hr : linkByLLM rest with e | pr
            · rw [hr] at hok; simp only [Except.map] at hok; cases hok
            · obtain ⟨l, u⟩ := pr
              rw [hr] at hok
              simp only [Except.map] at hok
              cases hok
              simp only [List.map_cons, mkLinked_toEntity, List.cons_append]
              exact (ih hrest _ _ hr).cons _

/-- C1: whenever `Linker.run` is called on a non-empty entity list, every
verification response issued parses as an integer, and the call returns
normally, the result is a partition of the input: the linked and unlinked
outputs jointly are a permutation of the input entities (each output entry
corresponds to exactly one input entity, none duplicated, none lost), and
in particular their lengths sum to the input length. -/
theorem linker_run_partition (cfg : LinkerCfg)
    (retrieve : Entity → List (Scored CandDoc)) (llm : EWC → String)
    (entities : List Entity) (t : Rat) (res : LinkerResponse)
    (hne : entities ≠ [])
    (hparse : ∀ x ∈ (retrieveCandidates cfg retrieve entities t).1,
        (parseIntPy (llm x)).isSome)
    (hok : Linker.run cfg retrieve llm entities t = .ok res) :
    (res.linked_entities.map LinkedEntity.toEntity
        ++ res.unlinked_entities).Perm entities
      ∧ res.linked_entities.length + res.unlinked_entities.length
          = entities.length := by
  have hmain : (res.linked_entities.map LinkedEntity.toEntity
      ++ res.unlinked_entities).Perm entities := by
    have hpart := retrieveCandidates_partition cfg retrieve entities t
    simp only [Linker.run] at hok
    rw [if_neg (by simpa using hne)] at hok
    by_cases hewc : (retrieveCandidates cfg retrieve entities t).1.isEmpty = true
    · rw [if_pos hewc] at hok
      cases hok
      rw [List.isEmpty_iff.1 hewc] at hpart
      simpa using hpart
    · rw [if_neg hewc] at hok
      rcases hllm : linkByLLM ((retrieveCandidates cfg retrieve entities t).1.map
          (fun x => (x, llm x))) with e | p
      · rw [hllm] at hok; cases hok
      · rw [hllm] at hok
        cases hok
        obtain ⟨l, u⟩ := p
        have hparse2 : ∀ q ∈ (retrieveCandidates cfg retrieve entities t).1.map
            (fun x => (x, llm x)), (parseIntPy q.2).isSome := by
          intro q hq
          obtain ⟨x, hx, rfl⟩ := List.mem_map.1 hq
          exact hparse x hx
        have hllmperm := linkByLLM_partition _ hparse2 l u hllm
        rw [List.map_map] at hllmperm
        have hcomp : ((fun q : EWC × String => q.1.entity) ∘ fun x => (x, llm x))
            = EWC.entity := rfl
        rw [hcomp] at hllmperm
        rw [← Multiset.coe_eq_coe] at hllmperm hpart ⊢
        simp only [List.map_append, ← Multiset.coe_add] at hllmperm hpart ⊢
        rw [← hpart, ← hllmperm]
        abel
  refine ⟨hmain, ?_⟩
  have hlen := hmain.length_eq
  simpa [List.length_append, List.length_map] using hlen


/-- Trivial linker configuration: no per-type transform and no skip
threshold. -/
def cfgPlain : LinkerCfg :=
  { candidate_postprocess_fns := fun _ => none, skip_llm_check_confidence := none }

/-- Witness for C1 at a concrete run: one entity, one candidate retrieved
with score 9, threshold 0, no shortcut configured, response `"1"`; the
result links the entity and the partition equation holds. -/
theorem linker_run_partition_witness :
    Linker.run cfgPlain (fun _ => [{ document := docC, score := 9 }])
        (fun _ => "1") [entT] 0
      = .ok { linked_entities := [mkLinked entT docC], unlinked_entities := [] }
      ∧ ([mkLinked entT docC].map LinkedEntity.toEntity
          ++ ([] : List Entity)).Perm [entT]
      ∧ [mkLinked entT docC].length + ([] : List Entity).length
          = [entT].length := by
  have hrun : Linker.run cfgPlain (fun _ => [{ document := docC, score := 9 }])
        (fun _ => "1") [entT] 0
      = .ok { linked_entities := [mkLinked entT docC], unlinked_entities := [] } := by
    rfl
  have h := linker_run_partition cfgPlain
    (fun _ => [{ document := docC, score := 9 }]) (fun _ => "1") [entT] 0
    { linked_entities := [mkLinked entT docC], unlinked_entities := [] }
    (by decide) (fun x hx => by rfl) hrun
  exact ⟨hrun, h.1, h.2⟩


/-! ### RAG retriever post-processing
(`services/rag/retriever/vector_search.py`) -/

/-- Models `hanashi.core.vector_search.base.Document`: `id` is a required
string, `source_id` and `index` are optional, `content` is the text. -/
structure Document where
  id : String
  source_id : Option String := none
  index : Option Int := none
  content : String := ""
deriving DecidableEq

/-- Comparison of the sort keys `(x.id is None, x.source_id)` used by
`merge_docuemnt_splits` (line 19).  `Document.id` is a required string, so
the first tuple component is `False` on both sides and Python proceeds to
compare the `source_id`s, raising `TypeError` when exactly one is `None`;
that partiality is embedded in `Except`.  Returns whether the left key is
less-or-equal (the stable-sort placement test). -/
def keyCmpLE (a b : Document) : Except Unit Bool :=
  match a.source_id, b.source_id with
  | none, none => .ok true
  | some x, some y => .ok (decide (x ≤ y))
  | _, _ => .error ()

/-- Ordered insertion built on the partial key comparison: the building
block of the embedded stable sort. -/
def orderedInsertE (a : Document) : List Document → Except Unit (List Document)
  | [] => .ok [a]
  | b :: l =>
    match keyCmpLE a b with
    | .error e => .error e
    | .ok le =>
      if le then .ok (a :: b :: l)
      else
        match orderedInsertE a l with
        | .error e => .error e
        | .ok tail => .ok (b :: tail)

/-- Models `sorted(docs, key=lambda x: (x.id is None, x.source_id))` as a
stable insertion sort over the partial comparison `keyCmpLE`.  On inputs
whose `source_id`s are pairwise comparable this is the unique stable sort,
which is what Python's stable Timsort returns; on mixed inputs any sort
must directly compare a `None` key with a string key to order the two
classes, and that comparison raises — `sortedByKeyE_error_of_mixed` below
proves this embedding does fail on every mixed input. -/
def sortedByKeyE : List Document → Except Unit (List Document)
  | [] => .ok []
  | a :: l =>
    match sortedByKeyE l with
    | .error e => .error e
    | .ok tail => orderedInsertE a tail

/-- Models `itertools.groupby(docs, key=lambda x: x.source_id)` (line 20):
maximal runs of consecutive documents with equal `source_id`. -/
def groupBySrc : List Document → List (List Document)
  | [] => []
  | d :: rest =>
    (d :: rest.takeWhile (fun x => x.source_id == d.source_id))
      :: groupBySrc (rest.dropWhile (fun x => x.source_id == d.source_id))
termination_by l => l.length
decreasing_by
  simp only [List.length_cons]
  exact Nat.lt_succ_of_le (List.dropWhile_sublist _).length_le

/-- The inner accumulation loop of `merge_docuemnt_splits` (lines 24-31):
scan a group in order; at the first document with `index == 0` the
accumulated prefix is discarded, that document alone survives and the
loop breaks; otherwise every document is accumulated. -/
def mergeGroupLoop (group_docs : List Document) : List Document → List Document
  | [] => group_docs
  | d :: rest =>
    if d.index == some 0 then [d]
    else mergeGroupLoop (group_docs ++ [d]) rest

/-- The merged form of one `source_id` group. -/
def mergeGroup (g : List Document) : List Document := mergeGroupLoop [] g

/-- Models `merge_docuemnt_splits` (lines 18-34; the misspelling is the
source's): stable-sort by `(x.id is None, x.source_id)`, group consecutive
equal `source_id`s, merge each group, concatenate. -/
def merge_docuemnt_splits (docs : List Document) : Except Unit (List Document) :=
  match sortedByKeyE docs with
  | .error e => .error e
  | .ok sorted => .ok ((groupBySrc sorted).map mergeGroup).flatten

/-- Dictionary deduplication `list({x.id: x for x in docs}.values())`
(line 61): dict keys keep first-insertion order while values are
overwritten, so each `id` survives at its first position carrying its
last-seen document. -/
def dedupById (docs : List Document) : List Document :=
  (docs.foldl
    (fun acc x =>
      if acc.any (fun p => p.1 == x.id) then
        acc.map (fun p => if p.1 == x.id then (p.1, x) else p)
      else acc ++ [(x.id, x)])
    ([] : List (String × Document))).map Prod.snd

/-- Models `post_process_documents` (lines 37-81): score filter in
non-require mode, dedup by id, optional approximate-token length filter
(`tiktoken` is the external counter, taken as an oracle; `if
max_length_per_doc:` makes a configured limit of `0` falsy), optional
split merge whose `TypeError` propagates, optional stable final sort by a
caller key (embedded integer-valued). -/
def post_process_documents (countTokens : String → Nat)
    (scored_docs : List (Scored Document)) (score_threshold : Rat)
    (max_length_per_doc : Option Nat) (merge_splits : Bool)
    (sort_by : Option (Document → Int)) : Except Unit (List Document) := do
  let docs0 := filter_search_results_docs scored_docs score_threshold false
  let docs1 := dedupById docs0
  let docs2 :=
    match max_length_per_doc with
    | some maxLen =>
      if maxLen ≠ 0 then
        docs1.filter (fun x => decide (countTokens x.content < maxLen))
      else docs1
    | none => docs1
  let docs3 ← if merge_splits then merge_docuemnt_splits docs2 else .ok docs2
  match sort_by with
  | some key => .ok (docs3.mergeSort (fun a b => decide (key a ≤ key b)))
  | none => .ok docs3

/-- The comparability precondition: the documents' `source_id`s are
pairwise comparable, i.e. all are strings or all are `None` (under which
Python's key comparisons cannot raise). -/
def Comparable (docs : List Document) : Prop :=
  ∀ a ∈ docs, ∀ b ∈ docs, a.source_id.isSome = b.source_id.isSome

instance (docs : List Document) : Decidable (Comparable docs) := by
  unfold Comparable
  infer_instance

/-- Total boolean completion of the key order (`none` below `some`),
agreeing with `keyCmpLE` on every comparable pair. -/
def srcLEb : Option String → Option String → Bool
  | none, _ => true
  | some _, none => false
  | some x, some y => decide (x ≤ y)

/-- The total key order on documents used to state sortedness and the
stable-sort bridge. -/
def docLE (a b : Document) : Prop := srcLEb a.source_id b.source_id = true

instance : DecidableRel docLE := fun a b =>
  inferInstanceAs (Decidable (srcLEb a.source_id b.source_id = true))

instance : IsTotal Document docLE := by
  constructor
  intro a b
  unfold docLE srcLEb
  rcases a.source_id with - | x <;> rcases b.source_id with - | y
  · simp
  · simp
  · simp
  · rcases le_total x y with h | h <;> simp [h]

instance : IsTrans Document docLE := by
  constructor
  intro a b c hab hbc
  unfold docLE srcLEb at hab hbc ⊢
  rcases ha : a.source_id with - | x
  · rcases hcc : c.source_id with - | z <;> simp
  · rcases hb : b.source_id with - | y
    · rw [ha, hb] at hab
      simp at hab
    · rcases hcc : c.source_id with - | z
      · rw [hb, hcc] at hbc
        simp at hbc
      · rw [ha, hb] at hab
        rw [hb, hcc] at hbc
        have h1 : x ≤ y := by simpa using hab
        have h2 : y ≤ z := by simpa using hbc
        simpa using le_trans h1 h2


theorem srcLEb_refl (o : Option String) : srcLEb o o = true := by
  rcases o with - | x <;> simp [srcLEb]

theorem keyCmpLE_ok_of_kind (a b : Document)
    (h : a.source_id.isSome = b.source_id.isSome) :
    keyCmpLE a b = .ok (srcLEb a.source_id b.source_id) := by
  unfold keyCmpLE srcLEb
  rcases ha : a.source_id with - | x <;> rcases hb : b.source_id with - | y <;>
    rw [ha, hb] at h <;> simp_all

theorem keyCmpLE_error_of_kind_ne (a b : Document)
    (h : a.source_id.isSome ≠ b.source_id.isSome) :
    keyCmpLE a b = .error () := by
  unfold keyCmpLE
  rcases ha : a.source_id with - | x <;> rcases hb : b.source_id with - | y <;>
    rw [ha, hb] at h <;> simp_all

theorem orderedInsertE_ok (a : Document) (l : List Document) (k : Bool)
    (hak : a.source_id.isSome = k) (hlk : ∀ d ∈ l, d.source_id.isSome = k) :
    orderedInsertE a l = .ok (List.orderedInsert docLE a l) := by
  induction l with
  | nil => rfl
  | cons b l ih =>
    have hb := hlk b (List.mem_cons_self b l)
    have hcmp := keyCmpLE_ok_of_kind a b (by rw [hak, hb])
    have ihl := ih (fun d hd => hlk d (List.mem_cons_of_mem b hd))
    cases hle : srcLEb a.source_id b.source_id with
    | true =>
      rw [hle] at hcmp
      simp only [orderedInsertE, hcmp, if_true]
      rw [List.orderedInsert, if_pos (show docLE a b from hle)]
    | false =>
      rw [hle] at hcmp
      simp only [orderedInsertE, hcmp, Bool.false_eq_true, if_false, ihl]
      rw [List.orderedInsert,
        if_neg (show ¬docLE a b from by simp [docLE, hle])]

theorem sortedByKeyE_ok (l : List Document) (k : Bool)
    (hlk : ∀ d ∈ l, d.source_id.isSome = k) :
    sortedByKeyE l = .ok (List.insertionSort docLE l) := by
  induction l with
  | nil => rfl
  | cons a l ih =>
    have htail := ih (fun d hd => hlk d (List.mem_cons_of_mem a hd))
    simp only [sortedByKeyE, htail, List.insertionSort]
    exact orderedInsertE_ok a _ k (hlk a (List.mem_cons_self a l))
      (fun d hd => hlk d (List.mem_cons_of_mem a
        ((List.mem_insertionSort (r := docLE)).1 hd)))

theorem comparable_kind (l : List Document) (hc : Comparable l) :
    l = [] ∨ ∃ k, ∀ d ∈ l, d.source_id.isSome = k := by
  cases l with
  | nil => exact Or.inl rfl
  | cons a l =>
    exact Or.inr ⟨a.source_id.isSome,
      fun d hd => hc d hd a (List.mem_cons_self a l)⟩

/-- A mixed list makes the embedded stable sort raise: the first
incomparable pair reached by an insertion triggers the `TypeError` of the
key comparison, and a mixed list always reaches one. -/
theorem sortedByKeyE_error_of_mixed (l : List Document)
    (hmix : ¬ Comparable l) : sortedByKeyE l = .error () := by
  induction l with
  | nil => exact absurd (fun a ha => absurd ha (List.not_mem_nil a)) hmix
  | cons a l ih =>
    by_cases hc : Comparable l
    · rcases comparable_kind l hc with rfl | ⟨k, hk⟩
      · exact absurd
          (fun x hx y hy => by
            rw [List.mem_singleton] at hx hy
            rw [hx, hy]) hmix
      · by_cases hak : a.source_id.isSome = k
        · exact absurd
            (fun x hx y hy => by
              have hx2 : x.source_id.isSome = k := by
                rcases List.mem_cons.1 hx with rfl | hx3
                · exact hak
                · exact hk _ hx3
              have hy2 : y.source_id.isSome = k := by
                rcases List.mem_cons.1 hy with rfl | hy3
                · exact hak
                · exact hk _ hy3
              rw [hx2, hy2]) hmix
        · have hsort := sortedByKeyE_ok l k hk
          simp only [sortedByKeyE, hsort]
          rcases hst : List.insertionSort docLE l with - | ⟨c, st⟩
          · have : l = [] := by
              have hlen := congrArg List.length hst
              rw [List.length_insertionSort] at hlen
              exact List.length_eq_zero.1 hlen
            subst this
            exact absurd (fun x hx y hy => by
              rw [List.mem_singleton] at hx hy
              rw [hx, hy]) hmix
          · have hck : c.source_id.isSome = k := by
              apply hk
              have : c ∈ List.insertionSort docLE l := by
                rw [hst]; exact List.mem_cons_self c st
              exact (List.mem_insertionSort (r := docLE)).1 this
            have hcmp := keyCmpLE_error_of_kind_ne a c (by rw [hck]; exact hak)
            simp only [orderedInsertE, hcmp]
    · simp only [sortedByKeyE, ih hc]


theorem groupBySrc_flatten (l : List Document) : (groupBySrc l).flatten = l := by
  induction l using groupBySrc.induct with
  | case1 => rw [groupBySrc]; rfl
  | case2 d rest ih =>
    rw [groupBySrc]
    simp only [List.flatten_cons, ih, List.cons_append]
    rw [List.takeWhile_append_dropWhile]

theorem groupBySrc_ne_nil (l : List Document) (g : List Document)
    (hg : g ∈ groupBySrc l) : g ≠ [] := by
  induction l using groupBySrc.induct with
  | case1 => simp [groupBySrc] at hg
  | case2 d rest ih =>
    rw [groupBySrc] at hg
    rcases List.mem_cons.1 hg with rfl | hg2
    · exact List.cons_ne_nil d _
    · exact ih hg2


/-- In a sorted list whose key order is antisymmetric on its members, no
document with the head's `source_id` occurs after the initial run of that
`source_id` (so the runs of `itertools.groupby` are whole key classes). -/
theorem dropWhile_no_key (d : Document) (rest : List Document)
    (hs : List.Pairwise docLE (d :: rest))
    (hanti : ∀ a ∈ d :: rest, ∀ b ∈ d :: rest, docLE a b → docLE b a →
        a.source_id = b.source_id) :
    ∀ x ∈ rest.dropWhile (fun y => y.source_id == d.source_id),
      x.source_id ≠ d.source_id := by
  induction rest with
  | nil => intro x hx; simp at hx
  | cons b rest ih =>
    have hsubmem : ∀ a ∈ d :: rest, a ∈ d :: b :: rest := by
      intro a ha
      rcases List.mem_cons.1 ha with rfl | ha2
      · exact List.mem_cons_self a _
      · exact List.mem_cons_of_mem d (List.mem_cons_of_mem b ha2)
    by_cases hb : (b.source_id == d.source_id) = true
    · intro x hx
      rw [List.dropWhile_cons, if_pos hb] at hx
      have hs2 : List.Pairwise docLE (d :: rest) :=
        hs.sublist (List.Sublist.cons₂ d (List.sublist_cons_self b rest))
      have hanti2 : ∀ a ∈ d :: rest, ∀ c ∈ d :: rest, docLE a c → docLE c a →
          a.source_id = c.source_id :=
        fun a ha c hc3 => hanti a (hsubmem a ha) c (hsubmem c hc3)
      exact ih hs2 hanti2 x hx
    · intro x hx
      rw [List.dropWhile_cons, if_neg hb] at hx
      have hbne : b.source_id ≠ d.source_id := by simpa using hb
      rcases List.mem_cons.1 hx with rfl | hx2
      · exact hbne
      · intro heq
        obtain ⟨hdall, htail⟩ := List.pairwise_cons.1 hs
        have hdb : docLE d b := hdall b (List.mem_cons_self b rest)
        obtain ⟨hball, -⟩ := List.pairwise_cons.1 htail
        have hbx : docLE b x := hball x hx2
        have hbd : docLE b d := by
          show srcLEb b.source_id d.source_id = true
          rw [← heq]
          exact hbx
        have := hanti d (List.mem_cons_self d _) b
          (List.mem_cons_of_mem d (List.mem_cons_self b rest)) hdb hbd
        exact hbne this.symm

theorem filter_eq_takeWhile_of_drop_none {α : Type} (p : α → Bool) (l : List α)
    (h : ∀ x ∈ l.dropWhile p, ¬ p x = true) : l.filter p = l.takeWhile p := by
  conv_lhs => rw [← List.takeWhile_append_dropWhile (p := p) (l := l)]
  rw [List.filter_append,
    List.filter_eq_self.2 (fun x hx => List.mem_takeWhile_imp hx),
    List.filter_eq_nil_iff.2 h, List.append_nil]

/-- Each group produced by `groupBySrc` on a sorted, member-antisymmetric
list is exactly the sublist of all documents sharing one `source_id`, in
order. -/
theorem groupBySrc_filter_of_sorted (l : List Document)
    (hs : List.Pairwise docLE l)
    (hanti : ∀ a ∈ l, ∀ b ∈ l, docLE a b → docLE b a →
        a.source_id = b.source_id) :
    ∀ g ∈ groupBySrc l, ∃ k, (∀ x ∈ g, x.source_id = k)
        ∧ g = l.filter (fun x => x.source_id == k) := by
  induction l using groupBySrc.induct with
  | case1 => intro g hg; simp [groupBySrc] at hg
  | case2 d rest ih =>
    intro g hg
    rw [groupBySrc] at hg
    have hnokey := dropWhile_no_key d rest hs hanti
    rcases List.mem_cons.1 hg with rfl | hg2
    · refine ⟨d.source_id, ?_, ?_⟩
      · intro x hx
        rcases List.mem_cons.1 hx with rfl | hx2
        · rfl
        · simpa using List.mem_takeWhile_imp hx2
      · rw [List.filter_cons, if_pos (by simp)]
        congr 1
        rw [filter_eq_takeWhile_of_drop_none _ _
          (fun x hx => by simpa using hnokey x hx)]
    · have hsubdrop : List.Sublist
          (rest.dropWhile (fun y => y.source_id == d.source_id)) (d :: rest) :=
        (List.dropWhile_sublist _).trans (List.sublist_cons_self d rest)
      have hs2 : List.Pairwise docLE
          (rest.dropWhile (fun y => y.source_id == d.source_id)) :=
        hs.sublist hsubdrop
      have hanti2 : ∀ a ∈ rest.dropWhile (fun y => y.source_id == d.source_id),
          ∀ b ∈ rest.dropWhile (fun y => y.source_id == d.source_id),
          docLE a b → docLE b a → a.source_id = b.source_id :=
        fun a ha b hb => hanti a (hsubdrop.subset ha) b (hsubdrop.subset hb)
      obtain ⟨k, hk, heq⟩ := ih hs2 hanti2 g hg2
      refine ⟨k, hk, ?_⟩
      have hkne : ¬ (d.source_id == k) = true := by
        obtain ⟨x0, hx0⟩ := List.exists_mem_of_ne_nil g
          (groupBySrc_ne_nil _ g hg2)
        have hx0k := hk x0 hx0
        have hx0drop : x0 ∈ rest.dropWhile
            (fun y => y.source_id == d.source_id) := by
          rw [heq] at hx0
          exact List.mem_of_mem_filter hx0
        have hx0ne := hnokey x0 hx0drop
        simp only [beq_iff_eq]
        intro hdk
        exact hx0ne (by rw [hx0k, ← hdk])
      rw [List.filter_cons, if_neg hkne]
      conv_rhs => rw [← List.takeWhile_append_dropWhile
        (p := fun y => y.source_id == d.source_id) (l := rest)]
      rw [List.filter_append]
      have htake : (rest.takeWhile (fun y => y.source_id == d.source_id)).filter
          (fun x => x.source_id == k) = [] := by
        rw [List.filter_eq_nil_iff]
        intro x hx
        have hxd : x.source_id = d.source_id := by
          simpa using List.mem_takeWhile_imp hx
        simp only [beq_iff_eq]
        intro hxk
        apply hkne
        simp only [beq_iff_eq]
        rw [← hxd, hxk]
      rw [htake, List.nil_append]
      exact heq


/-- Stability of the embedded sort: the documents of any one `source_id`
appear in the sorted list exactly as they appear in the input (Python's
Timsort is stable in the same sense). -/
theorem insertionSort_filter_key (docs : List Document) (k : Option String) :
    (List.insertionSort docLE docs).filter (fun x => x.source_id == k)
      = docs.filter (fun x => x.source_id == k) := by
  have hpair : (docs.filter (fun x => x.source_id == k)).Pairwise docLE := by
    apply List.pairwise_of_forall_mem_list
    intro a ha b hb
    have hak : a.source_id = k := by simpa using (List.mem_filter.1 ha).2
    have hbk : b.source_id = k := by simpa using (List.mem_filter.1 hb).2
    show srcLEb a.source_id b.source_id = true
    rw [hak, hbk]
    exact srcLEb_refl k
  have hsub : List.Sublist (docs.filter (fun x => x.source_id == k))
      (List.insertionSort docLE docs) :=
    List.sublist_insertionSort hpair (List.filter_sublist docs)
  have hself : (docs.filter (fun x => x.source_id == k)).filter
      (fun x => x.source_id == k) = docs.filter (fun x => x.source_id == k) :=
    List.filter_eq_self.2 (fun a ha => (List.mem_filter.1 ha).2)
  have hsub2 : List.Sublist (docs.filter (fun x => x.source_id == k))
      ((List.insertionSort docLE docs).filter (fun x => x.source_id == k)) := by
    have h2 := hsub.filter (fun x => x.source_id == k)
    rwa [hself] at h2
  have hperm := (List.perm_insertionSort docLE docs).filter
    (fun x => x.source_id == k)
  exact (hsub2.eq_of_length hperm.length_eq.symm).symm

theorem mergeGroupLoop_spec (g : List Document) (acc : List Document) :
    mergeGroupLoop acc g
      = match g.find? (fun x => x.index == some 0) with
        | some d => [d]
        | none => acc ++ g := by
  induction g generalizing acc with
  | nil => simp [mergeGroupLoop]
  | cons d rest ih =>
    cases hd : (d.index == some 0) with
    | true =>
      simp only [mergeGroupLoop, hd, if_true]
      rw [show List.find? (fun x => x.index == some 0) (d :: rest) = some d from
        List.find?_cons_of_pos _ hd]
    | false =>
      simp only [mergeGroupLoop, hd, Bool.false_eq_true, if_false]
      rw [ih, show List.find? (fun x => x.index == some 0) (d :: rest)
          = List.find? (fun x => x.index == some 0) rest from
        List.find?_cons_of_neg _ (by simp [hd])]
      rcases hf : rest.find? (fun x => x.index == some 0) with - | d2
      · rw [hf]
        simp [List.append_assoc]
      · rw [hf]

/-- C10: `merge_docuemnt_splits` raises `TypeError` on every input
containing both a document whose `source_id` is `None` and one whose
`source_id` is a string — the sort key comparison of `None` against `str`
raises — and under the precondition that all `source_id`s are mutually
comparable the merge step is total and returns normally.
(`post_process_documents` with `merge_splits=True` calls it on the
deduplicated list and propagates the same error.) -/
theorem merge_docuemnt_splits_totality (docs : List Document) :
    ((∃ a ∈ docs, a.source_id = none) ∧ (∃ b ∈ docs, b.source_id ≠ none) →
        merge_docuemnt_splits docs = .error ())
      ∧ (Comparable docs → ∃ out, merge_docuemnt_splits docs = .ok out) := by
  constructor
  · rintro ⟨⟨a, ha, han⟩, ⟨b, hb, hbn⟩⟩
    have hmix : ¬ Comparable docs := by
      intro hc
      have hab := hc a ha b hb
      rw [han] at hab
      rcases hbs : b.source_id with - | y
      · exact hbn hbs
      · rw [hbs] at hab
        simp at hab
    simp only [merge_docuemnt_splits, sortedByKeyE_error_of_mixed docs hmix]
  · intro hc
    rcases comparable_kind docs hc with rfl | ⟨k, hk⟩
    · exact ⟨((groupBySrc []).map mergeGroup).flatten,
        by simp only [merge_docuemnt_splits, sortedByKeyE]⟩
    · exact ⟨((groupBySrc (List.insertionSort docLE docs)).map mergeGroup).flatten,
        by simp only [merge_docuemnt_splits, sortedByKeyE_ok docs k hk]⟩

/-- A concrete document with no `source_id`. -/
def docN : Document := { id := "n" }

/-- A concrete document with a string `source_id` and `index` 1. -/
def docS1 : Document := { id := "1", source_id := some "s", index := some 1 }

/-- A concrete document with the same `source_id` and `index` 0. -/
def docS0 : Document := { id := "2", source_id := some "s", index := some 0 }

/-- Witness for C10: a mixed pair raises, an all-string pair returns
normally. -/
theorem merge_docuemnt_splits_totality_witness :
    merge_docuemnt_splits [docN, docS1] = .error ()
      ∧ ∃ out, merge_docuemnt_splits [docS1, docS0] = .ok out := by
  constructor
  · exact (merge_docuemnt_splits_totality [docN, docS1]).1
      ⟨⟨docN, by decide, rfl⟩, ⟨docS1, by decide, by decide⟩⟩
  · exact (merge_docuemnt_splits_totality [docS1, docS0]).2 (by decide)

/-- C7: under the comparability precondition the split merge returns the
concatenation of the per-group merges of the stable-sorted input; the
sorted list is ordered by the sort key `(x.id is None, x.source_id)`;
every group consists of exactly the input documents sharing one
`source_id`, in their original relative order (the group equals the
filter of the input by that key); a group containing a document with
`index == 0` merges to exactly the first such document, and a group with
none keeps all of its members unchanged. -/
theorem merge_docuemnt_splits_spec (docs : List Document) (hc : Comparable docs) :
    merge_docuemnt_splits docs
        = .ok ((groupBySrc (List.insertionSort docLE docs)).map mergeGroup).flatten
      ∧ List.Sorted docLE (List.insertionSort docLE docs)
      ∧ ∀ g ∈ groupBySrc (List.insertionSort docLE docs),
          (∃ k, (∀ x ∈ g, x.source_id = k)
              ∧ g = docs.filter (fun x => x.source_id == k))
            ∧ (match g.find? (fun x => x.index == some 0) with
                | some d => mergeGroup g = [d]
                | none => mergeGroup g = g) := by
  have hsorted : List.Sorted docLE (List.insertionSort docLE docs) :=
    List.sorted_insertionSort docLE docs
  refine ⟨?_, hsorted, ?_⟩
  · rcases comparable_kind docs hc with rfl | ⟨k, hk⟩
    · simp only [merge_docuemnt_splits, sortedByKeyE, List.insertionSort]
    · simp only [merge_docuemnt_splits, sortedByKeyE_ok docs k hk]
  · intro g hg
    constructor
    · have hanti : ∀ a ∈ List.insertionSort docLE docs,
          ∀ b ∈ List.insertionSort docLE docs,
          docLE a b → docLE b a → a.source_id = b.source_id := by
        intro a ha b hb hab hba
        have ha2 := (List.mem_insertionSort (r := docLE)).1 ha
        have hb2 := (List.mem_insertionSort (r := docLE)).1 hb
        have hkind := hc a ha2 b hb2
        rcases has : a.source_id with - | x <;> rcases hbs : b.source_id with - | y
        · rfl
        · rw [has, hbs] at hkind
          simp at hkind
        · rw [has, hbs] at hkind
          simp at hkind
        · unfold docLE srcLEb at hab hba
          rw [has, hbs] at hab hba
          simp only [decide_eq_true_eq] at hab hba
          rw [le_antisymm hab hba]
      obtain ⟨k, hk, heq⟩ := groupBySrc_filter_of_sorted _ hsorted hanti g hg
      exact ⟨k, hk, by rw [heq, insertionSort_filter_key]⟩
    · rcases hf : g.find? (fun x => x.index == some 0) with - | d
      · rw [mergeGroup, mergeGroupLoop_spec, hf, List.nil_append]
      · rw [mergeGroup, mergeGroupLoop_spec, hf]

/-- A concrete document with no `source_id` and `index` 1. -/
def docA1 : Document := { id := "1", index := some 1 }

/-- A concrete document with no `source_id` and `index` 0. -/
def docA0 : Document := { id := "2", index := some 0 }

/-- Witness for C7: two same-`source_id` documents, the second carrying
`index == 0`; the group is the whole (stably sorted) pair and merges to
exactly the `index == 0` document. -/
theorem merge_docuemnt_splits_spec_witness :
    merge_docuemnt_splits [docA1, docA0] = .ok [docA0] := by
  have h := (merge_docuemnt_splits_spec [docA1, docA0] (by decide)).1
  rw [h]
  have hsort : List.insertionSort docLE [docA1, docA0] = [docA1, docA0] := by rfl
  rw [hsort]
  have hgrp : groupBySrc [docA1, docA0] = [[docA1, docA0]] := by
    rw [groupBySrc]
    have ht : List.takeWhile (fun x => x.source_id == docA1.source_id) [docA0]
        = [docA0] := rfl
    have hdw : List.dropWhile (fun x => x.source_id == docA1.source_id) [docA0]
        = [] := rfl
    rw [ht, hdw, groupBySrc]
  rw [hgrp]
  have hmerge : mergeGroup [docA1, docA0] = [docA0] := by
    simp [mergeGroup, mergeGroupLoop, docA1, docA0]
  simp [hmerge]

end Hanashi
